import Mathlib

/-!
Shallow embedding of the data-enrichment service in src/server.js.

The service is a single HTTP handler: it parses CSV rows, resolves a
company name per row through an alias priority list, calls an external
LLM once per company (capped at 50), extracts a brace-delimited JSON
object from the free-text reply, and aggregates summary figures.

External effects are parameters of the embedding: the LLM call is an
oracle mapping the iteration index and the company to an outcome, the
clock is a map from the iteration index to a timestamp string, and
JSON.parse is an abstract partial parse function. JavaScript numbers
are modelled as rationals.
-/

/-- JSON values, the results of JSON.parse in the embedding. -/
inductive Json where
  | null : Json
  | bool : Bool → Json
  | num : ℚ → Json
  | str : String → Json
  | arr : List Json → Json
  | obj : List (String × Json) → Json

/-- A CSV record: an ordered mapping of column name to string cell,
as produced by csv-parser for one row (server.js line 34). -/
def Record : Type := List (String × String)

/-- JavaScript property access on an object represented as an ordered
field list: the value of the first binding of the key. -/
def objGet {α : Type} (o : List (String × α)) (k : String) : Option α :=
  (o.find? (fun p => p.1 == k)).map (fun p => p.2)

/-- JavaScript truthiness filter for a possibly-absent string: the empty
string and an absent value are both falsy (the semantics of the chain of
logical-or at server.js lines 36-37 and of the guard at line 38). -/
def truthyOpt (v : Option String) : Option String :=
  v.bind (fun s => if s = "" then none else some s)

/-- Company-name candidate of a row, per server.js lines 36-37: the
alias chain joined with logical-or, falling back to the first value of
the row (Object.values of the row, index 0). -/
def companyNameOf (row : Record) : Option String :=
  (truthyOpt (objGet row "company")).orElse (fun _ =>
  (truthyOpt (objGet row "Company")).orElse (fun _ =>
  (truthyOpt (objGet row "business_name")).orElse (fun _ =>
  (truthyOpt (objGet row "Company Name")).orElse (fun _ =>
  row.head?.map (fun p => p.2)))))

/-- Resolved company name of a row: the candidate of server.js lines
36-37 passed through the truthiness guard of line 38. -/
def resolveName (row : Record) : Option String :=
  truthyOpt (companyNameOf row)

/-- A company queued for enrichment (server.js line 38). -/
structure Company where
  name : String
  originalRow : Record

/-- Rows are turned into companies in order; rows with no resolvable
name are dropped (server.js lines 34-39). -/
def extractCompanies (rows : List Record) : List Company :=
  rows.filterMap (fun row => (resolveName row).map (fun n => ⟨n, row⟩))

/-- Failure kinds of one enrichment call (section 7 of the spec): the
external call itself errors, the reply holds no brace-delimited
substring (server.js line 108), or JSON.parse throws (line 110). -/
inductive EnrichError where
  | serviceError : EnrichError
  | noJsonFound : EnrichError
  | malformedJson : EnrichError

/-- Suffix of a character list starting at the first occurrence of the
character x, if any. -/
def dropToChar (x : Char) : List Char → Option (List Char)
  | [] => none
  | c :: rest => if c = x then some (c :: rest) else dropToChar x rest

/-- Suffix of the character list starting at the first opening brace,
if any: where the regex of server.js line 107 starts matching. -/
def dropToBrace (cs : List Char) : Option (List Char) := dropToChar '{' cs

/-- Suffix of a reversed character list starting at the first closing
brace of the reversed list, if any. -/
def dropToCloseRev (cs : List Char) : Option (List Char) := dropToChar '}' cs

/-- Prefix of the character list ending at the last closing brace, if
any: the greedy end of the regex match of server.js line 107. -/
def takeToLastClose (cs : List Char) : Option (List Char) :=
  (dropToCloseRev cs.reverse).map List.reverse

/-- The regex match of server.js line 107: the substring from the first
opening brace to the last closing brace, when one exists. -/
def extractJson (cs : List Char) : Option (List Char) :=
  (dropToBrace cs).bind takeToLastClose

/-- JSON-extraction part of enrichCompany (server.js lines 104-110),
over the reply text and an abstract JSON.parse: no match throws the
no-JSON error, a parse failure the malformed-JSON error, and a
successful parse is returned as is, with no schema validation. -/
def enrichCompany (parse : List Char → Option Json) (responseText : List Char) :
    Except EnrichError Json :=
  match extractJson responseText with
  | none => Except.error EnrichError.noJsonFound
  | some sub =>
    match parse sub with
    | none => Except.error EnrichError.malformedJson
    | some j => Except.ok j

/-- Per-record cost constant of server.js lines 114-119: the argument
is ignored and 0.15 is returned. -/
def calculateCost (_data : List (String × Json)) : ℚ := 15 / 100

/-- Field list of a CSV row viewed as a JSON object, ready to be spread
into a result row. -/
def rowToJson (row : Record) : List (String × Json) :=
  row.map (fun p => (p.1, Json.str p.2))

/-- JavaScript object-spread merge: keys of the second object win; keys
of the first object survive only where the second has no binding. -/
def objMerge (a b : List (String × Json)) : List (String × Json) :=
  a.filter (fun p => (objGet b p.1).isNone) ++ b

/-- One loop iteration of server.js lines 46-60: on success the
original row, the enriched fields, the cost and the timestamp are
spread into one result row; on any failure the original row is spread
with the error marker only. -/
def processOne (outcome : Except EnrichError (List (String × Json)))
    (timestamp : String) (c : Company) : List (String × Json) :=
  match outcome with
  | Except.ok enrichedData =>
    objMerge (objMerge (rowToJson c.originalRow) enrichedData)
      [("enrichment_cost", Json.num (calculateCost enrichedData)),
       ("enriched_at", Json.str timestamp)]
  | Except.error _ =>
    objMerge (rowToJson c.originalRow) [("error", Json.str "Enrichment failed")]

/-- Sequential loop from iteration index i over the remaining
companies, one result row pushed per company. -/
def processFrom (enrich : Nat → Company → Except EnrichError (List (String × Json)))
    (timeAt : Nat → String) : Nat → List Company → List (List (String × Json))
  | _, [] => []
  | i, c :: rest => processOne (enrich i c) (timeAt i) c :: processFrom enrich timeAt (i + 1) rest

/-- The batch loop of server.js line 45: the company list is truncated
to 50 entries and processed strictly sequentially. -/
def processCompanies (enrich : Nat → Company → Except EnrichError (List (String × Json)))
    (timeAt : Nat → String) (companies : List Company) : List (List (String × Json)) :=
  processFrom enrich timeAt 0 (companies.take 50)

/-- Body of the 200 response of server.js lines 63-70. -/
structure EnrichResponse where
  success : Bool
  total_processed : ℕ
  estimated_cost : ℚ
  retail_value : ℚ
  margin : ℚ
  data : List (List (String × Json))

/-- Observable reply of the enrich endpoint: a 200 JSON body, or a 500
with an error message (server.js lines 72-75). -/
inductive ApiResponse where
  | ok : EnrichResponse → ApiResponse
  | serverError : String → ApiResponse

/-- The whole handler of POST /api/enrich (server.js lines 23-76) over
the parse outcome of the uploaded buffer: a parse failure reaches the
outer catch and yields the generic 500; otherwise companies are
extracted, the batch is processed, and the summary is computed from the
length of the result list. -/
def handleEnrich (enrich : Nat → Company → Except EnrichError (List (String × Json)))
    (timeAt : Nat → String) (parsed : Except String (List Record)) : ApiResponse :=
  match parsed with
  | Except.error _ => ApiResponse.serverError "Processing failed"
  | Except.ok rows =>
    let results := processCompanies enrich timeAt (extractCompanies rows)
    ApiResponse.ok
      { success := true
        total_processed := results.length
        estimated_cost := (results.length : ℚ) * (15 / 100)
        retail_value := (results.length : ℚ) * 10
        margin := (results.length : ℚ) * 10 - (results.length : ℚ) * (15 / 100)
        data := results }

/-- Name candidates of a row in priority order, written from the words
of the spec (section 3): the values of the four alias columns that are
present, then the first value of the row. Used to compare the source
resolution rule against the spec. -/
def nameCandidates (row : Record) : List String :=
  List.filterMap id
    [objGet row "company", objGet row "Company", objGet row "business_name",
     objGet row "Company Name", row.head?.map (fun p => p.2)]

/-! Basic lemmas about object lookup and merge. -/

theorem objGet_nil {α : Type} (k : String) : objGet ([] : List (String × α)) k = none := rfl

theorem objGet_cons {α : Type} (p : String × α) (l : List (String × α)) (k : String) :
    objGet (p :: l) k = if p.1 = k then some p.2 else objGet l k := by
  by_cases h : p.1 = k
  · simp [objGet, List.find?, h]
  · have hb : (p.1 == k) = false := by simp [h]
    simp [objGet, List.find?, hb, h]

theorem objGet_objMerge (a b : List (String × Json)) (k : String) :
    objGet (objMerge a b) k = (objGet b k).orElse (fun _ => objGet a k) := by
  induction a with
  | nil =>
    simp only [objMerge, List.filter_nil, List.nil_append, objGet_nil]
    cases objGet b k <;> rfl
  | cons p a ih =>
    simp only [objMerge, List.filter_cons] at ih ⊢
    by_cases hb : (objGet b p.1).isNone
    · simp only [hb, if_pos, List.cons_append, objGet_cons]
      by_cases hk : p.1 = k
      · subst hk
        rw [Option.isNone_iff_eq_none] at hb
        simp [hb, Option.orElse]
      · simp [hk, ih]
    · simp only [hb, if_neg, Bool.false_eq_true, not_false_iff]
      by_cases hk : p.1 = k
      · subst hk
        rcases ho : objGet b p.1 with _ | v
        · rw [Option.isNone_iff_eq_none] at hb; exact absurd ho hb
        · simp [ih, ho, Option.orElse]
      · rw [ih, objGet_cons, if_neg hk]

/-! Lemmas about the sequential batch loop. -/

theorem length_processFrom (e : Nat → Company → Except EnrichError (List (String × Json)))
    (t : Nat → String) (l : List Company) : ∀ i : ℕ, (processFrom e t i l).length = l.length := by
  induction l with
  | nil => intro i; rfl
  | cons c rest ih => intro i; simp [processFrom, ih]

theorem getElem?_processFrom (e : Nat → Company → Except EnrichError (List (String × Json)))
    (t : Nat → String) (l : List Company) : ∀ (i j : ℕ),
    (processFrom e t i l)[j]? = (l[j]?).map (fun c => processOne (e (i + j) c) (t (i + j)) c) := by
  induction l with
  | nil => intro i j; simp [processFrom]
  | cons c rest ih =>
    intro i j
    cases j with
    | zero => simp [processFrom]
    | succ j =>
      have h : i + 1 + j = i + (j + 1) := by omega
      simp only [processFrom, List.getElem?_cons_succ, ih (i + 1) j, h]

theorem length_processCompanies (e : Nat → Company → Except EnrichError (List (String × Json)))
    (t : Nat → String) (cs : List Company) :
    (processCompanies e t cs).length = min cs.length 50 := by
  simp [processCompanies, length_processFrom, List.length_take, Nat.min_comm]

theorem getElem?_take_lt {α : Type} : ∀ (n i : ℕ) (l : List α), i < n → (l.take n)[i]? = l[i]? := by
  intro n
  induction n with
  | zero => intro i l h; omega
  | succ n ih =>
    intro i l h
    cases l with
    | nil => simp
    | cons x xs =>
      cases i with
      | zero => simp
      | succ i => simpa using ih i xs (by omega)

theorem getElem?_processCompanies (e : Nat → Company → Except EnrichError (List (String × Json)))
    (t : Nat → String) (cs : List Company) (i : ℕ) (h : i < 50) :
    (processCompanies e t cs)[i]? = (cs[i]?).map (fun c => processOne (e i c) (t i) c) := by
  rw [processCompanies, getElem?_processFrom, getElem?_take_lt 50 i cs h]
  simp

theorem length_extractCompanies (rows : List Record) :
    (extractCompanies rows).length = rows.countP (fun row => (resolveName row).isSome) := by
  induction rows with
  | nil => rfl
  | cons row rest ih =>
    simp only [extractCompanies] at ih ⊢
    rcases h : resolveName row with _ | n <;>
      simp [List.filterMap_cons, List.countP_cons, h, ih]

/-! Claim theorems about batch length, the summary formulas and the
boundary responses. -/

/-- C1: for every valid tabular input, the sequence of result rows (and
hence total_processed) has length exactly the minimum of the number of
rows with a resolvable name and 50; entries beyond the first 50 are
dropped without being reported. -/
theorem claim_C1_output_length (e : Nat → Company → Except EnrichError (List (String × Json)))
    (t : Nat → String) (rows : List Record) (r : EnrichResponse)
    (h : handleEnrich e t (Except.ok rows) = ApiResponse.ok r) :
    r.data.length = min (rows.countP (fun row => (resolveName row).isSome)) 50 ∧
    r.total_processed = r.data.length := by
  simp only [handleEnrich] at h
  injection h with h1
  subst h1
  constructor
  · show (processCompanies e t (extractCompanies rows)).length = _
    rw [length_processCompanies, length_extractCompanies]
  · rfl

theorem claim_C1_witness :
    ({ success := true, total_processed := 50, estimated_cost := (50 : ℚ) * (15 / 100),
       retail_value := (50 : ℚ) * 10, margin := (50 : ℚ) * 10 - (50 : ℚ) * (15 / 100),
       data := List.replicate 50 [("company", Json.str "Acme"),
         ("error", Json.str "Enrichment failed")] } : EnrichResponse).data.length =
      min ((List.replicate 60 ([("company", "Acme")] : Record)).countP
        (fun row => (resolveName row).isSome)) 50 ∧
    ({ success := true, total_processed := 50, estimated_cost := (50 : ℚ) * (15 / 100),
       retail_value := (50 : ℚ) * 10, margin := (50 : ℚ) * 10 - (50 : ℚ) * (15 / 100),
       data := List.replicate 50 [("company", Json.str "Acme"),
         ("error", Json.str "Enrichment failed")] } : EnrichResponse).total_processed =
      ({ success := true, total_processed := 50, estimated_cost := (50 : ℚ) * (15 / 100),
         retail_value := (50 : ℚ) * 10, margin := (50 : ℚ) * 10 - (50 : ℚ) * (15 / 100),
         data := List.replicate 50 [("company", Json.str "Acme"),
           ("error", Json.str "Enrichment failed")] } : EnrichResponse).data.length :=
  claim_C1_output_length (fun _ _ => Except.error EnrichError.serviceError) (fun _ => "T")
    (List.replicate 60 [("company", "Acme")]) _ (by rfl)

/-- C2: every 200 response satisfies estimated_cost = total_processed
times 0.15, retail_value = total_processed times 10, and margin =
retail_value minus estimated_cost, with total_processed the number of
result rows. -/
theorem claim_C2_summary_formulas (e : Nat → Company → Except EnrichError (List (String × Json)))
    (t : Nat → String) (parsed : Except String (List Record)) (r : EnrichResponse)
    (h : handleEnrich e t parsed = ApiResponse.ok r) :
    r.total_processed = r.data.length ∧
    r.estimated_cost = (r.total_processed : ℚ) * (15 / 100) ∧
    r.retail_value = (r.total_processed : ℚ) * 10 ∧
    r.margin = r.retail_value - r.estimated_cost := by
  cases parsed with
  | error msg =>
    simp only [handleEnrich] at h
    exact ApiResponse.noConfusion h
  | ok rows =>
    simp only [handleEnrich] at h
    injection h with h1
    subst h1
    exact ⟨rfl, rfl, rfl, rfl⟩

theorem claim_C2_witness :
    (0 : ℕ) = ([] : List (List (String × Json))).length ∧
    ((0 : ℕ) : ℚ) * (15 / 100) = ((0 : ℕ) : ℚ) * (15 / 100) ∧
    ((0 : ℕ) : ℚ) * 10 = ((0 : ℕ) : ℚ) * 10 ∧
    ((0 : ℕ) : ℚ) * 10 - ((0 : ℕ) : ℚ) * (15 / 100) =
      ((0 : ℕ) : ℚ) * 10 - ((0 : ℕ) : ℚ) * (15 / 100) :=
  claim_C2_summary_formulas (fun _ _ => Except.ok []) (fun _ => "") (Except.ok [])
    { success := true, total_processed := 0, estimated_cost := ((0 : ℕ) : ℚ) * (15 / 100),
      retail_value := ((0 : ℕ) : ℚ) * 10,
      margin := ((0 : ℕ) : ℚ) * 10 - ((0 : ℕ) : ℚ) * (15 / 100), data := [] } (by rfl)

/-- C7: an upload yielding zero valid companies is answered with the
success response whose counters and figures are all zero and whose data
list is empty. -/
theorem claim_C7_zero_companies (e : Nat → Company → Except EnrichError (List (String × Json)))
    (t : Nat → String) (rows : List Record) (h : extractCompanies rows = []) :
    handleEnrich e t (Except.ok rows) = ApiResponse.ok
      { success := true, total_processed := 0, estimated_cost := 0, retail_value := 0,
        margin := 0, data := [] } := by
  have hp : processCompanies e t (extractCompanies rows) = [] := by rw [h]; rfl
  simp only [handleEnrich, hp, List.length_nil, ApiResponse.ok.injEq, EnrichResponse.mk.injEq]
  norm_num

theorem claim_C7_witness :
    extractCompanies [[("company", "")]] = [] ∧
    handleEnrich (fun _ _ => Except.ok []) (fun _ => "") (Except.ok [[("company", "")]]) =
      ApiResponse.ok
        { success := true, total_processed := 0, estimated_cost := 0, retail_value := 0,
          margin := 0, data := [] } :=
  ⟨by rfl, claim_C7_zero_companies (fun _ _ => Except.ok []) (fun _ => "") [[("company", "")]]
    (by rfl)⟩

/-- C8: a malformed tabular input aborts the whole request with the
generic 500 body; the 500 reply carries no data, so no partial result
and no enrichment row reaches the caller. -/
theorem claim_C8_parse_failure (e : Nat → Company → Except EnrichError (List (String × Json)))
    (t : Nat → String) (msg : String) :
    handleEnrich e t (Except.error msg) = ApiResponse.serverError "Processing failed" := rfl

/-! Claim theorems about per-row failure handling and the merge order. -/

/-- C5: when enrichment of the company at loop position i fails, the
result list still holds, at that position, the original row merged with
the error marker only; the batch goes on and the failed row still
counts toward total_processed, the length of the result list. -/
theorem claim_C5_partial_failure (e : Nat → Company → Except EnrichError (List (String × Json)))
    (t : Nat → String) (cs : List Company) (i : ℕ) (c : Company) (err : EnrichError)
    (h1 : i < 50) (h2 : cs[i]? = some c) (h3 : e i c = Except.error err) :
    (processCompanies e t cs)[i]? =
      some (objMerge (rowToJson c.originalRow) [("error", Json.str "Enrichment failed")]) ∧
    (processCompanies e t cs).length = min cs.length 50 := by
  refine ⟨?_, length_processCompanies e t cs⟩
  rw [getElem?_processCompanies e t cs i h1, h2]
  simp [processOne, h3]

theorem claim_C5_witness :
    (processCompanies
      (fun i _ => if i = 2 then Except.error EnrichError.serviceError
        else Except.ok [("industry", Json.str "Tech")])
      (fun _ => "T")
      [⟨"C1", [("company", "C1")]⟩, ⟨"C2", [("company", "C2")]⟩, ⟨"C3", [("company", "C3")]⟩,
       ⟨"C4", [("company", "C4")]⟩, ⟨"C5", [("company", "C5")]⟩])[2]? =
      some (objMerge (rowToJson [("company", "C3")]) [("error", Json.str "Enrichment failed")]) ∧
    (processCompanies
      (fun i _ => if i = 2 then Except.error EnrichError.serviceError
        else Except.ok [("industry", Json.str "Tech")])
      (fun _ => "T")
      [⟨"C1", [("company", "C1")]⟩, ⟨"C2", [("company", "C2")]⟩, ⟨"C3", [("company", "C3")]⟩,
       ⟨"C4", [("company", "C4")]⟩, ⟨"C5", [("company", "C5")]⟩]).length =
      min ([⟨"C1", [("company", "C1")]⟩, ⟨"C2", [("company", "C2")]⟩, ⟨"C3", [("company", "C3")]⟩,
       ⟨"C4", [("company", "C4")]⟩, ⟨"C5", [("company", "C5")]⟩] : List Company).length 50 :=
  claim_C5_partial_failure
    (fun i _ => if i = 2 then Except.error EnrichError.serviceError
      else Except.ok [("industry", Json.str "Tech")])
    (fun _ => "T")
    [⟨"C1", [("company", "C1")]⟩, ⟨"C2", [("company", "C2")]⟩, ⟨"C3", [("company", "C3")]⟩,
     ⟨"C4", [("company", "C4")]⟩, ⟨"C5", [("company", "C5")]⟩]
    2 ⟨"C3", [("company", "C3")]⟩ EnrichError.serviceError (by decide) (by rfl) (by rfl)

/-- C10: on success the spread order makes enriched fields overwrite
original columns of the same name: any key of the enriched object other
than the two appended bookkeeping keys reads back the LLM value in the
result row, regardless of the original cell. -/
theorem claim_C10_enriched_overwrites (e : Nat → Company → Except EnrichError (List (String × Json)))
    (t : Nat → String) (cs : List Company) (i : ℕ) (c : Company)
    (fields : List (String × Json)) (k : String) (v : Json)
    (h1 : i < 50) (h2 : cs[i]? = some c) (h3 : e i c = Except.ok fields)
    (h4 : objGet fields k = some v)
    (h5 : k ≠ "enrichment_cost") (h6 : k ≠ "enriched_at") :
    ∀ row, (processCompanies e t cs)[i]? = some row → objGet row k = some v := by
  intro row hrow
  rw [getElem?_processCompanies e t cs i h1, h2] at hrow
  simp only [Option.map] at hrow
  injection hrow with hr
  subst hr
  simp only [processOne, h3]
  rw [objGet_objMerge, objGet_objMerge]
  rw [objGet_cons, objGet_cons, objGet_nil, if_neg (fun hc => h5 hc.symm),
    if_neg (fun hc => h6 hc.symm), h4]
  rfl

theorem claim_C10_witness :
    objGet [("company", Json.str "Acme"), ("industry", Json.str "Tech"),
      ("enrichment_cost", Json.num (15 / 100)), ("enriched_at", Json.str "T")] "industry" =
      some (Json.str "Tech") :=
  claim_C10_enriched_overwrites
    (fun _ _ => Except.ok [("industry", Json.str "Tech")]) (fun _ => "T")
    [⟨"Acme", [("company", "Acme"), ("industry", "retail")]⟩] 0
    ⟨"Acme", [("company", "Acme"), ("industry", "retail")]⟩
    [("industry", Json.str "Tech")] "industry" (Json.str "Tech")
    (by decide) (by rfl) (by rfl) (by rfl) (by decide) (by decide)
    [("company", Json.str "Acme"), ("industry", Json.str "Tech"),
      ("enrichment_cost", Json.num (15 / 100)), ("enriched_at", Json.str "T")] (by rfl)

/-- C6 counterexample: a batch whose single enrichment fails produces a
result row holding only the original column and the error marker; the
row has neither an enrichment_cost nor an enriched_at field, against
the claim that every result row carries both. -/
theorem claim_C6_counterexample :
    processCompanies (fun _ _ => Except.error EnrichError.serviceError)
      (fun _ => "2025-01-01T00:00:00.000Z") [⟨"Acme", [("company", "Acme")]⟩] =
      [[("company", Json.str "Acme"), ("error", Json.str "Enrichment failed")]] ∧
    objGet [("company", Json.str "Acme"), ("error", Json.str "Enrichment failed")]
      "enrichment_cost" = none ∧
    objGet [("company", Json.str "Acme"), ("error", Json.str "Enrichment failed")]
      "enriched_at" = none :=
  ⟨rfl, rfl, rfl⟩

/-- C6 (amended): a successful result row is the original row merged
with the enriched fields plus enrichment_cost and enriched_at (the two
bookkeeping keys overriding all else); a failed result row is the
original row merged with the error field only, so it carries
enrichment_cost, enriched_at or any other key only if the original row
did. -/
theorem claim_C6_result_row_shape (e : Nat → Company → Except EnrichError (List (String × Json)))
    (t : Nat → String) (cs : List Company) (i : ℕ) (c : Company)
    (h1 : i < 50) (h2 : cs[i]? = some c) :
    ∀ row, (processCompanies e t cs)[i]? = some row →
      (∀ fields, e i c = Except.ok fields →
        objGet row "enrichment_cost" = some (Json.num (15 / 100)) ∧
        objGet row "enriched_at" = some (Json.str (t i)) ∧
        ∀ k, k ≠ "enrichment_cost" → k ≠ "enriched_at" →
          objGet row k = (objGet fields k).orElse (fun _ => objGet (rowToJson c.originalRow) k)) ∧
      (∀ err, e i c = Except.error err →
        objGet row "error" = some (Json.str "Enrichment failed") ∧
        ∀ k, k ≠ "error" → objGet row k = objGet (rowToJson c.originalRow) k) := by
  intro row hrow
  rw [getElem?_processCompanies e t cs i h1, h2] at hrow
  simp only [Option.map] at hrow
  injection hrow with hr
  subst hr
  constructor
  · intro fields hok
    simp only [processOne, hok]
    refine ⟨?_, ?_, ?_⟩
    · rw [objGet_objMerge, objGet_cons, if_pos rfl]
      rfl
    · rw [objGet_objMerge, objGet_cons, objGet_cons,
        if_neg (by decide : ¬ ("enrichment_cost" = "enriched_at")), if_pos rfl]
      rfl
    · intro k h5 h6
      rw [objGet_objMerge, objGet_cons, objGet_cons, objGet_nil,
        if_neg (fun hc => h5 hc.symm), if_neg (fun hc => h6 hc.symm), objGet_objMerge]
      rfl
  · intro err herr
    simp only [processOne, herr]
    constructor
    · rw [objGet_objMerge, objGet_cons, if_pos rfl]
      rfl
    · intro k h5
      rw [objGet_objMerge, objGet_cons, objGet_nil, if_neg (fun hc => h5 hc.symm)]
      rfl

theorem claim_C6_witness :
    objGet [("company", Json.str "Acme"), ("industry", Json.str "Tech"),
      ("enrichment_cost", Json.num (15 / 100)), ("enriched_at", Json.str "T")]
      "enrichment_cost" = some (Json.num (15 / 100)) :=
  ((claim_C6_result_row_shape
    (fun _ _ => Except.ok [("industry", Json.str "Tech")]) (fun _ => "T")
    [⟨"Acme", [("company", "Acme")]⟩] 0 ⟨"Acme", [("company", "Acme")]⟩
    (by decide) (by rfl)
    [("company", Json.str "Acme"), ("industry", Json.str "Tech"),
      ("enrichment_cost", Json.num (15 / 100)), ("enriched_at", Json.str "T")] (by rfl)).1
    [("industry", Json.str "Tech")] (by rfl)).1

/-! Lemmas and claim theorems about company-name resolution. -/

theorem orElse_none_right (x : Option String) : x.orElse (fun _ => none) = x := by
  cases x <;> rfl

theorem truthyOpt_orElse (x : Option String) (f : Unit → Option String) :
    truthyOpt ((truthyOpt x).orElse f) = (truthyOpt x).orElse (fun u => truthyOpt (f u)) := by
  cases x with
  | none => rfl
  | some s => by_cases h : s = "" <;> simp [truthyOpt, h, Option.orElse]

theorem find?_filterMap_cons (x : Option String) (rest : List (Option String)) :
    (List.filterMap id (x :: rest)).find? (fun s => !(s == "")) =
      (truthyOpt x).orElse (fun _ => (List.filterMap id rest).find? (fun s => !(s == ""))) := by
  cases x with
  | none => simp [truthyOpt, Option.orElse]
  | some s =>
    by_cases h : s = ""
    · have hb : (s == "") = true := by simp [h]
      simp [truthyOpt, h, hb, List.find?, Option.orElse]
    · have hb : (s == "") = false := by simp [h]
      simp [truthyOpt, h, hb, List.find?, Option.orElse]

/-- The resolution rule of server.js lines 36-38, rephrased: the
resolved name is the first nonempty entry of the candidate list of the
spec (the present alias values in priority order, then the first value
of the row). -/
theorem resolveName_eq_find_candidates (row : Record) :
    resolveName row = (nameCandidates row).find? (fun s => !(s == "")) := by
  rw [resolveName, companyNameOf, nameCandidates]
  simp only [truthyOpt_orElse, find?_filterMap_cons, List.filterMap_nil, List.find?_nil,
    orElse_none_right]

/-- C3: the company name is the first nonempty candidate through the
alias priority list company, Company, business_name, Company Name and
the first-value fallback; rows with no resolvable name are dropped and
do not count toward total_processed. -/
theorem claim_C3_alias_priority :
    (∀ row : Record, resolveName row = (nameCandidates row).find? (fun s => !(s == ""))) ∧
    (∀ (e : Nat → Company → Except EnrichError (List (String × Json))) (t : Nat → String)
      (rows : List Record) (r : EnrichResponse),
      handleEnrich e t (Except.ok rows) = ApiResponse.ok r →
      r.total_processed = min (rows.countP (fun row => (resolveName row).isSome)) 50) := by
  refine ⟨resolveName_eq_find_candidates, ?_⟩
  intro e t rows r h
  simp only [handleEnrich] at h
  injection h with h1
  subst h1
  show (processCompanies e t (extractCompanies rows)).length = _
  rw [length_processCompanies, length_extractCompanies]

theorem claim_C3_witness :
    ({ success := true, total_processed := 1,
       estimated_cost := (1 : ℚ) * (15 / 100), retail_value := (1 : ℚ) * 10,
       margin := (1 : ℚ) * 10 - (1 : ℚ) * (15 / 100),
       data := [[("company", Json.str "Acme"), ("error", Json.str "Enrichment failed")]] } :
       EnrichResponse).total_processed =
      min (([[("company", "Acme")], [("x", "")]] : List Record).countP
        (fun row => (resolveName row).isSome)) 50 :=
  (claim_C3_alias_priority).2 (fun _ _ => Except.error EnrichError.serviceError) (fun _ => "T")
    [[("company", "Acme")], [("x", "")]] _ (by rfl)

/-- C9: resolution tests truthiness, not presence: a company column
holding the empty string falls through, and resolution proceeds over
the remaining candidates; the resolved name is never the empty string,
and a row whose candidates are all empty is dropped. -/
theorem claim_C9_truthiness_resolution :
    (∀ row : Record, objGet row "company" = some "" →
      resolveName row = ((nameCandidates row).tail).find? (fun s => !(s == ""))) ∧
    (∀ row : Record, resolveName row ≠ some "") ∧
    (∀ row : Record, (∀ s ∈ nameCandidates row, s = "") → resolveName row = none) := by
  refine ⟨?_, ?_, ?_⟩
  · intro row h
    have hc : nameCandidates row = "" :: (nameCandidates row).tail := by
      rw [nameCandidates, h]
      simp [List.filterMap_cons, nameCandidates]
    rw [resolveName_eq_find_candidates, hc]
    simp [List.find?]
  · intro row hcon
    rw [resolveName_eq_find_candidates] at hcon
    have hp := List.find?_some hcon
    simp at hp
  · intro row hall
    rw [resolveName_eq_find_candidates, List.find?_eq_none]
    intro x hx
    simp [hall x hx]

theorem claim_C9_witness :
    objGet ([("company", ""), ("Company", "Acme")] : Record) "company" = some "" ∧
    resolveName [("company", ""), ("Company", "Acme")] =
      ((nameCandidates [("company", ""), ("Company", "Acme")]).tail).find?
        (fun s => !(s == "")) :=
  ⟨by rfl, (claim_C9_truthiness_resolution).1 [("company", ""), ("Company", "Acme")] (by rfl)⟩

/-! Lemmas and the claim theorem about the JSON-extraction step of the
enrichment client. -/

theorem dropToChar_eq_none_iff (x : Char) (cs : List Char) :
    dropToChar x cs = none ↔ x ∉ cs := by
  induction cs with
  | nil => simp [dropToChar]
  | cons c rest ih =>
    by_cases h : c = x
    · subst h
      simp [dropToChar]
    · have hxc : ¬ (x = c) := fun he => h he.symm
      simp [dropToChar, h, ih, hxc]

theorem dropToChar_eq_some_iff (x : Char) (cs s : List Char) :
    dropToChar x cs = some s ↔ ∃ a, cs = a ++ s ∧ x ∉ a ∧ ∃ r, s = x :: r := by
  induction cs with
  | nil =>
    simp only [dropToChar]
    constructor
    · intro h
      exact Option.noConfusion h
    · rintro ⟨a, ha, hxa, r, rfl⟩
      rcases a with _ | ⟨y, a2⟩ <;> simp at ha
  | cons c rest ih =>
    simp only [dropToChar]
    by_cases h : c = x
    · rw [if_pos h]
      constructor
      · intro hs
        injection hs with hs
        refine ⟨[], by rw [← hs]; rfl, by simp, rest, by rw [← hs, h]⟩
      · rintro ⟨a, ha, hxa, r, hr⟩
        rcases a with _ | ⟨y, a2⟩
        · rw [List.nil_append] at ha
          rw [← ha]
        · injection ha with h1 h2
          exfalso
          apply hxa
          rw [h.symm.trans h1]
          exact List.mem_cons_self y a2
    · rw [if_neg h, ih]
      constructor
      · rintro ⟨a, ha, hxa, r, hr⟩
        refine ⟨c :: a, by rw [ha]; simp [List.cons_append], ?_, r, hr⟩
        intro hm
        rcases List.mem_cons.mp hm with h1 | h2
        · exact h h1.symm
        · exact hxa h2
      · rintro ⟨a, ha, hxa, r, hr⟩
        rcases a with _ | ⟨y, a2⟩
        · rw [List.nil_append] at ha
          rw [hr] at ha
          injection ha with h1 h2
          exact absurd h1 h
        · injection ha with h1 h2
          exact ⟨a2, h2, fun hm => hxa (List.mem_cons_of_mem y hm), r, hr⟩

theorem takeToLastClose_eq_some_iff (cs t : List Char) :
    takeToLastClose cs = some t ↔ ∃ c, cs = t ++ c ∧ '}' ∉ c ∧ ∃ r, t = r ++ ['}'] := by
  simp only [takeToLastClose, dropToCloseRev]
  rw [Option.map_eq_some']
  constructor
  · rintro ⟨u, hu, rfl⟩
    rw [dropToChar_eq_some_iff] at hu
    obtain ⟨a, ha, hna, r, rfl⟩ := hu
    refine ⟨a.reverse, ?_, ?_, r.reverse, ?_⟩
    · have hrev := congrArg List.reverse ha
      simpa [List.reverse_append] using hrev
    · intro hm
      exact hna (List.mem_reverse.mp hm)
    · simp
  · rintro ⟨c, rfl, hc, r, rfl⟩
    refine ⟨'}' :: r.reverse, ?_, ?_⟩
    · rw [dropToChar_eq_some_iff]
      refine ⟨c.reverse, ?_, ?_, r.reverse, rfl⟩
      · simp [List.reverse_append]
      · intro hm
        exact hc (List.mem_reverse.mp hm)
    · simp

theorem extractJson_eq_some_iff (cs t : List Char) :
    extractJson cs = some t ↔
      ∃ a m c, cs = a ++ t ++ c ∧ t = '{' :: (m ++ ['}']) ∧ '{' ∉ a ∧ '}' ∉ c := by
  simp only [extractJson, dropToBrace]
  rw [Option.bind_eq_some]
  constructor
  · rintro ⟨s, hs, ht⟩
    rw [dropToChar_eq_some_iff] at hs
    obtain ⟨a, rfl, ha, r, rfl⟩ := hs
    rw [takeToLastClose_eq_some_iff] at ht
    obtain ⟨c, hsplit, hc, r2, rfl⟩ := ht
    rcases r2 with _ | ⟨y, r3⟩
    · rw [List.nil_append, List.cons_append] at hsplit
      injection hsplit with h1 h2
      exact absurd h1 (by decide)
    · rw [List.cons_append, List.cons_append] at hsplit
      injection hsplit with h1 h2
      refine ⟨a, r3, c, ?_, ?_, ha, hc⟩
      · rw [h2, ← h1]
        simp [List.cons_append, List.append_assoc]
      · rw [← h1, List.cons_append]
  · rintro ⟨a, m, c, rfl, rfl, ha, hc⟩
    refine ⟨'{' :: (m ++ ['}']) ++ c, ?_, ?_⟩
    · rw [dropToChar_eq_some_iff]
      exact ⟨a, by simp [List.append_assoc], ha, m ++ ['}'] ++ c, by simp⟩
    · rw [takeToLastClose_eq_some_iff]
      exact ⟨c, by simp, hc, '{' :: m, by simp⟩

theorem takeToLastClose_ne_none_of_mem (s : List Char) (h : '}' ∈ s) :
    takeToLastClose s ≠ none := by
  intro hn
  have hd : dropToChar '}' s.reverse = none := by
    cases hd : dropToChar '}' s.reverse with
    | none => rfl
    | some u =>
      rw [takeToLastClose, dropToCloseRev, hd] at hn
      exact Option.noConfusion hn
  rw [dropToChar_eq_none_iff] at hd
  exact hd (List.mem_reverse.mpr h)

theorem extractJson_ne_none_of_pair : ∀ (a b c : List Char),
    extractJson (a ++ '{' :: (b ++ '}' :: c)) ≠ none := by
  intro a
  induction a with
  | nil =>
    intro b c
    simp only [extractJson, dropToBrace, List.nil_append, dropToChar, if_pos rfl,
      Option.some_bind]
    exact takeToLastClose_ne_none_of_mem _ (by simp)
  | cons y a2 ih =>
    intro b c
    by_cases h : y = '{'
    · simp only [extractJson, dropToBrace, List.cons_append, dropToChar, if_pos h,
        Option.some_bind]
      exact takeToLastClose_ne_none_of_mem _ (by simp)
    · have hrec := ih b c
      simp only [extractJson, dropToBrace, List.cons_append, dropToChar, if_neg h]
      simpa only [extractJson, dropToBrace] using hrec

theorem extractJson_eq_none_iff (cs : List Char) :
    extractJson cs = none ↔ ¬ ∃ a b c, cs = a ++ '{' :: (b ++ '}' :: c) := by
  constructor
  · rintro h ⟨a, b, c, rfl⟩
    exact extractJson_ne_none_of_pair a b c h
  · intro h
    rcases heq : extractJson cs with _ | t
    · rfl
    · exfalso
      rw [extractJson_eq_some_iff] at heq
      obtain ⟨a, m, c, rfl, rfl, ha, hc⟩ := heq
      exact h ⟨a, m, c, by simp [List.cons_append, List.append_assoc]⟩

/-- C4: the enrichment client fails with the no-JSON error exactly when
the reply holds no brace-delimited substring; when the reply splits as
a prefix with no opening brace, a brace-delimited middle and a suffix
with no closing brace (that is, the span from the first opening to the
last closing brace), the middle is handed to JSON.parse: a parse
failure gives the malformed-JSON error and a parsed value is returned
unchanged, with no schema validation. -/
theorem claim_C4_json_extraction (parse : List Char → Option Json) (cs : List Char) :
    (enrichCompany parse cs = Except.error EnrichError.noJsonFound ↔
      ¬ ∃ a b c, cs = a ++ '{' :: (b ++ '}' :: c)) ∧
    (∀ a m c, cs = a ++ ('{' :: (m ++ ['}'])) ++ c → '{' ∉ a → '}' ∉ c →
      (parse ('{' :: (m ++ ['}'])) = none →
        enrichCompany parse cs = Except.error EnrichError.malformedJson) ∧
      (∀ j, parse ('{' :: (m ++ ['}'])) = some j → enrichCompany parse cs = Except.ok j)) := by
  constructor
  · rw [← extractJson_eq_none_iff]
    unfold enrichCompany
    rcases h : extractJson cs with _ | s
    · simp
    · rcases hp : parse s with _ | j <;> simp [hp]
  · intro a m c hcs ha hc
    have hx : extractJson cs = some ('{' :: (m ++ ['}'])) := by
      rw [extractJson_eq_some_iff]
      exact ⟨a, m, c, hcs, rfl, ha, hc⟩
    constructor
    · intro hp
      unfold enrichCompany
      rw [hx]
      simp [hp]
    · intro j hp
      unfold enrichCompany
      rw [hx]
      simp [hp]

theorem claim_C4_witness :
    enrichCompany (fun _ => some (Json.obj [])) (['a', '{', '}', 'b'] : List Char) =
      Except.ok (Json.obj []) :=
  ((claim_C4_json_extraction (fun _ => some (Json.obj []))
    ['a', '{', '}', 'b']).2 ['a'] [] ['b'] (by rfl) (by decide) (by decide)).2
    (Json.obj []) rfl
